import Mathlib

/-!
Verification of the draft-js copy/cut fragment-serialization handlers.

The development shallowly embeds the two clipboard handlers of the
repository (`editOnCopy` in lib/editOnCopy.js together with its simple
variant, and `editOnCut` in src/component/handlers/edit/editOnCut.js)
as pure Lean functions from an explicit input record to an explicit
record of observable effects.  DOM primitives that the handlers merely
consume (`window.getSelection`, `cloneContents`, `querySelector`,
`convertFromDraftStateToRaw`) are modelled as environment parameters;
everything the handlers themselves compute — the selected-key range,
the fragment-to-live key map, the element map with its fallback, and
the nested-list markup reconstruction — is translated line by line
from the source.
-/

namespace DraftClip

/-- Repetition of a string, modelling the JavaScript `s.repeat(n)`. -/
def strRepeat (s : String) : Nat → String
  | 0 => ""
  | n + 1 => s ++ strRepeat s n

/-- Serialization of an attribute list as it appears inside a div tag. -/
def renderAttrs : List (String × String) → String
  | [] => ""
  | (n, v) :: rest => " " ++ n ++ "=\"" ++ v ++ "\"" ++ renderAttrs rest

/-- Outer HTML of a detached `div` element carrying the given attributes
(in insertion order) and the given inner HTML. -/
def divOuterHTML (attrs : List (String × String)) (inner : String) : String :=
  "<div" ++ renderAttrs attrs ++ ">" ++ inner ++ "</div>"

/-- One content block of the document model: an identifier (`getKey()`),
its plain text, and the `indent` entry of its data map (`getIn` with
default 0; the data model declares `indent` a depth that is at least 0). -/
structure Block where
  key : String
  text : String
  indent : Nat
deriving DecidableEq, Repr

/-- Selection state as consumed by the handlers: `isCollapsed()`,
`getStartKey()` and `getEndKey()`. -/
structure SelectionState where
  collapsed : Bool
  startKey : String
  endKey : String
deriving DecidableEq, Repr

/-- Content state: the ordered block map of the live document. -/
structure ContentState where
  blocks : List Block
deriving DecidableEq, Repr

/-- The ordered key sequence of a content state, modelling
`getBlockMap().keySeq()`. -/
def ContentState.blockKeySeq (c : ContentState) : List String :=
  c.blocks.map (fun b => b.key)

/-- Editor state snapshot read by a handler at entry
(`editor._latestEditorState`). -/
structure EditorState where
  content : ContentState
  selection : SelectionState
deriving DecidableEq, Repr

/-- The DOM facts a handler invocation observes, abstracted:
`selectionText` is `window.getSelection().toString()`; `capturedInner`
is the serialized children of the cloned selection contents after the
removal of contenteditable=false descendants; `findElement lk` is the
outerHTML of `el.querySelector` for the block whose data-offset-key is
lk-0-0, or `none` when no such element exists in the captured clone. -/
structure DomEnv where
  selectionText : String
  capturedInner : String
  findElement : String → Option String

/-- One `clipboardData.setData(channel, payload)` call. -/
structure ClipboardWrite where
  channel : String
  payload : String
deriving DecidableEq, Repr

/-- Ordered key sequence of a fragment, modelling `fragment.keySeq().toJS()`. -/
def fragmentKeySeq (frag : List Block) : List String :=
  frag.map (fun b => b.key)

/-- Selected live block keys: the source computes
`keySeq().skipUntil(item == startKey).takeUntil(item == endKey).concat([endKey])`.
Immutable.js `skipUntil p` drops elements while `p` is false and
`takeUntil p` takes elements while `p` is false. -/
def selectedBlockKeys (docKeys : List String) (startKey endKey : String) : List String :=
  ((docKeys.dropWhile (fun k => !(k == startKey))).takeWhile (fun k => !(k == endKey)))
    ++ [endKey]

/-- One step of the keyMap-building reduce: the source iterates the
selected live keys with their index and stores
`acc[fragmentKeys[index]] = item`; a JavaScript out-of-range index reads
`undefined`, which stringifies to the literal key "undefined". Later
writes shadow earlier ones, as with object spread. -/
def keyMapGo (fragmentKeys : List String) (idx : Nat) (liveKeys : List String)
    (acc : String → Option String) : String → Option String :=
  match liveKeys with
  | [] => acc
  | item :: rest =>
      keyMapGo fragmentKeys (idx + 1) rest
        (fun k => if k = ((fragmentKeys.get? idx).getD ("undefined")) then some item else acc k)

/-- The fragment-key to live-key map built by the reduce over the
selected live keys (`keyMap` in the source). -/
def keyMapFun (fragmentKeys liveKeys : List String) : String → Option String :=
  keyMapGo fragmentKeys 0 liveKeys (fun _ => none)

/-- Lookup of a fragment block's text by key, modelling
`fragment.getIn([item, 'text'], '')`. -/
def fragGetText (frag : List Block) (k : String) : String :=
  match frag.find? (fun b => b.key == k) with
  | some b => b.text
  | none => ""

/-- The element map built per fragment key (`blockKeyToElementMap` in the
source): query the captured clone for the mapped live key; when the
query fails, synthesize a detached div whose innerHTML is the fragment
block's text. An absent keyMap entry yields the literal live key
"undefined", as the JavaScript template string would. -/
def blockKeyToElementMap (env : DomEnv) (frag : List Block)
    (km : String → Option String) : String → String :=
  fun k =>
    match env.findElement ((km k).getD ("undefined")) with
    | some markup => markup
    | none => "<div>" ++ fragGetText frag k ++ "</div>"

/-- One step of the nested-list reconstruction reduce, translated from
the source: wrap in li when the indent is truthy, then prepend sunkDepth
opening ul tags when positive, or that many closing ul tags when
negative, and append to the accumulated html. The accumulator pairs
`lastIndentation` with `html`. -/
def innerStep (em : String → String) (acc : Int × String) (item : Block) : Int × String :=
  let indent : Int := (item.indent : Int)
  let currentItemHtml0 := em item.key
  let currentItemHtml1 :=
    if indent ≠ 0 then "<li>" ++ currentItemHtml0 ++ "</li>" else currentItemHtml0
  let sunkDepth := indent - acc.1
  let currentItemHtml2 :=
    if 0 < sunkDepth then strRepeat ("<ul>") sunkDepth.toNat ++ currentItemHtml1
    else currentItemHtml1
  let currentItemHtml3 :=
    if sunkDepth < 0 then strRepeat ("</ul>") (-sunkDepth).toNat ++ currentItemHtml2
    else currentItemHtml2
  (indent, acc.2 ++ currentItemHtml3)

/-- The nested-list reconstructor: the source reduce over
`content.getBlocksAsArray()` starting from lastIndentation 0 and the
empty string, returning the accumulated html. -/
def buildNestedMarkup (em : String → String) (blocks : List Block) : String :=
  (blocks.foldl (innerStep em) (0, "")).2

/-- One step of the fold as the specification words it: wrap the markup
as an li exactly when the indent is positive, compute sunk as the indent
minus the previous indentation, choose the structural tag run by the
sign of sunk, and append the prefixed markup. -/
def specStep (em : String → String) (acc : Int × String) (item : Block) : Int × String :=
  let d : Int := (item.indent : Int)
  let m0 := em item.key
  let m1 := if 0 < d then "<li>" ++ m0 ++ "</li>" else m0
  let sunk := d - acc.1
  let structuralTags :=
    if 0 < sunk then strRepeat ("<ul>") sunk.toNat
    else if sunk < 0 then strRepeat ("</ul>") (-sunk).toNat
    else ""
  (d, acc.2 ++ (structuralTags ++ m1))

/-- The fold the specification describes, with the same initial
accumulator as the source. -/
def buildNestedMarkupSpec (em : String → String) (blocks : List Block) : String :=
  (blocks.foldl (specStep em) (0, "")).2

/-- Plain in-order concatenation of the blocks' element markup. -/
def concatMarkup (em : String → String) : List Block → String
  | [] => ""
  | b :: rest => em b.key ++ concatMarkup em rest

/-- A token of the reconstructed markup, separating the structural list
tags the fold itself emits from what it copies from the element map. -/
inductive MarkupToken where
  | openUl : MarkupToken
  | closeUl : MarkupToken
  | chunk : String → MarkupToken
deriving DecidableEq, Repr

/-- Rendering of one markup token back to its string. -/
def renderToken : MarkupToken → String
  | MarkupToken.openUl => "<ul>"
  | MarkupToken.closeUl => "</ul>"
  | MarkupToken.chunk s => s

/-- Rendering of a token list by concatenation. -/
def renderTokens : List MarkupToken → String
  | [] => ""
  | t :: ts => renderToken t ++ renderTokens ts

/-- Token-level view of one reconstruction step: the same arithmetic as
`innerStep`, emitting the structural ul tags as tokens followed by the
block's (possibly li-wrapped) markup as one chunk. -/
def tokenStep (em : String → String) (acc : Int × List MarkupToken) (item : Block) :
    Int × List MarkupToken :=
  let indent : Int := (item.indent : Int)
  let base0 := em item.key
  let base1 := if indent ≠ 0 then "<li>" ++ base0 ++ "</li>" else base0
  let sunkDepth := indent - acc.1
  let structural : List MarkupToken :=
    if 0 < sunkDepth then List.replicate sunkDepth.toNat MarkupToken.openUl
    else if sunkDepth < 0 then List.replicate (-sunkDepth).toNat MarkupToken.closeUl
    else []
  (indent, acc.2 ++ structural ++ [MarkupToken.chunk base1])

/-- Token-level reconstruction of a fragment. -/
def buildNestedTokens (em : String → String) (blocks : List Block) : List MarkupToken :=
  (blocks.foldl (tokenStep em) (0, [])).2

/-- Rendering of a token-level fold state to a string-level fold state. -/
def renderState (p : Int × List MarkupToken) : Int × String :=
  (p.1, renderTokens p.2)

/-- Count of emitted opening ul tokens minus emitted closing ul tokens. -/
def ulBalance (ts : List MarkupToken) : Int :=
  ((ts.countP (fun t => t == MarkupToken.openUl)) : Int)
    - ((ts.countP (fun t => t == MarkupToken.closeUl)) : Int)

/-- Symbolic record of a call to the external content mutation primitive
`DraftModifier.removeRange(content, selection, direction)`. -/
inductive ContentExpr where
  | removeRange : ContentState → SelectionState → String → ContentExpr
deriving DecidableEq, Repr

/-- Symbolic record of a call to the external state transition primitive
`EditorState.push(state, newContent, changeType)`. -/
inductive StateExpr where
  | push : EditorState → ContentExpr → String → StateExpr
deriving DecidableEq, Repr

/-- Translation of the source `removeFragment`: removeRange over the
given editor state's current content and selection with direction
forward, pushed with change type remove-range. -/
def removeFragment (editorState : EditorState) : StateExpr :=
  StateExpr.push editorState
    (ContentExpr.removeRange editorState.content editorState.selection ("forward"))
    ("remove-range")

/-- One action inside the deferred setTimeout callback of the cut
handler. -/
inductive DeferredAction where
  | restoreEditorDOM : DeferredAction
  | exitCurrentMode : DeferredAction
  | update : StateExpr → DeferredAction
deriving DecidableEq, Repr

/-- Observable effects of one copy-handler invocation. `writes` lists
the `clipboardData.setData` calls in program order. -/
structure CopyEffects where
  preventDefault : Bool
  setClipboardCalled : Bool
  clipboardArg : Option (List Block)
  writes : List ClipboardWrite
deriving DecidableEq, Repr

/-- Observable effects of one cut-handler invocation. The handler body
runs synchronously; `deferred` lists the setTimeout callbacks it
registered, each as its ordered action list, which the event loop runs
only after the synchronous body (and its `writes`) has completed. -/
structure CutEffects where
  preventDefault : Bool
  setClipboardCalled : Bool
  clipboardArg : Option (List Block)
  setModeCalls : List String
  deferred : List (List DeferredAction)
  writes : List ClipboardWrite
deriving DecidableEq, Repr

/-- The nested-markup string written to the output element: the element
map is built from the keyMap of the fragment keys against the selected
live keys, and the reconstruction reduce runs over the fragment blocks
(ContentState.createFromBlockArray preserves their order and keys). -/
def reconstructionHtml (env : DomEnv) (st : EditorState) (frag : List Block) : String :=
  let fragmentKeys := fragmentKeySeq frag
  let selKeys := selectedBlockKeys st.content.blockKeySeq st.selection.startKey st.selection.endKey
  let km := keyMapFun fragmentKeys selKeys
  buildNestedMarkup (blockKeyToElementMap env frag km) frag

/-- The three setData calls of the rich path shared by the full copy
handler and the cut handler: text/plain from the DOM selection, a first
text/html write of the captured clone's outerHTML, then the final
text/html write of the output element holding the reconstruction. -/
def richWrites (env : DomEnv) (st : EditorState) (frag : List Block)
    (serialisedContent : String) : List ClipboardWrite :=
  [ { channel := "text/plain", payload := env.selectionText },
    { channel := "text/html",
      payload := divOuterHTML
        [("data-editor-content", serialisedContent), ("style", "white-space: pre-wrap;")]
        env.capturedInner },
    { channel := "text/html",
      payload := divOuterHTML [("data-editor-content", serialisedContent)]
        (reconstructionHtml env st frag) } ]

/-- The full copy handler of lib/editOnCopy.js. A collapsed selection
calls preventDefault and returns; otherwise setClipboard runs
unconditionally, and the rich path (guarded by clipboardData presence
and fragment truthiness) performs the three setData calls and only then
preventDefault. `serialize` models convertFromDraftStateToRaw composed
with JSON.stringify; `fragment` models getFragmentFromSelection, with
none standing for a falsy result. -/
def editOnCopyFull (env : DomEnv) (serialize : List Block → String) (st : EditorState)
    (hasClipboardData : Bool) (fragment : Option (List Block)) : CopyEffects :=
  if st.selection.collapsed then
    { preventDefault := true, setClipboardCalled := false, clipboardArg := none, writes := [] }
  else
    match hasClipboardData, fragment with
    | true, some frag =>
        { preventDefault := true, setClipboardCalled := true, clipboardArg := fragment,
          writes := richWrites env st frag (serialize frag) }
    | _, _ =>
        { preventDefault := false, setClipboardCalled := true, clipboardArg := fragment,
          writes := [] }

/-- The simple copy handler variant (the second editOnCopy build in the
tree). It shallow-clones the captured wrapper (`cloneNode()` with no
argument copies attributes but no children), so its single text/html
write is the childless wrapper div, and no reconstruction runs. -/
def editOnCopySimple (env : DomEnv) (serialize : List Block → String) (st : EditorState)
    (hasClipboardData : Bool) (fragment : Option (List Block)) : CopyEffects :=
  if st.selection.collapsed then
    { preventDefault := true, setClipboardCalled := false, clipboardArg := none, writes := [] }
  else
    match hasClipboardData, fragment with
    | true, some frag =>
        { preventDefault := true, setClipboardCalled := true, clipboardArg := fragment,
          writes :=
            [ { channel := "text/plain", payload := env.selectionText },
              { channel := "text/html",
                payload := divOuterHTML
                  [("data-editor-content", serialize frag),
                   ("style", "white-space: pre-wrap;")] ("") } ] }
    | _, _ =>
        { preventDefault := false, setClipboardCalled := true, clipboardArg := fragment,
          writes := [] }

/-- The cut handler. After the collapsed-selection guard it calls
setClipboard, enters cut mode, registers one setTimeout callback that
restores the editor DOM, exits the current mode and then updates with
removeFragment of the editor state captured at entry; the rich clipboard
path is identical to the full copy handler's. -/
def editOnCut (env : DomEnv) (serialize : List Block → String) (st : EditorState)
    (hasClipboardData : Bool) (fragment : Option (List Block)) : CutEffects :=
  if st.selection.collapsed then
    { preventDefault := true, setClipboardCalled := false, clipboardArg := none,
      setModeCalls := [], deferred := [], writes := [] }
  else
    let recovery : List DeferredAction :=
      [ DeferredAction.restoreEditorDOM, DeferredAction.exitCurrentMode,
        DeferredAction.update (removeFragment st) ]
    match hasClipboardData, fragment with
    | true, some frag =>
        { preventDefault := true, setClipboardCalled := true, clipboardArg := fragment,
          setModeCalls := [("cut")], deferred := [recovery],
          writes := richWrites env st frag (serialize frag) }
    | _, _ =>
        { preventDefault := false, setClipboardCalled := true, clipboardArg := fragment,
          setModeCalls := [("cut")], deferred := [recovery], writes := [] }

/-- Final payload of the text/html channel of an effect record (the last
setData on that channel wins). -/
def lastHtml (effs : CopyEffects) : Option String :=
  ((effs.writes.filter (fun w => w.channel == "text/html")).getLast?).map (fun w => w.payload)

/-- Payload list of the text/plain channel of an effect record. -/
def plainWrites (effs : CopyEffects) : List String :=
  (effs.writes.filter (fun w => w.channel == "text/plain")).map (fun w => w.payload)

/-! Helper lemmas shared by the claim theorems. -/

/-- The source reconstruction step coincides with the step the
specification describes, pointwise. -/
theorem innerStep_eq_specStep (em : String → String) (acc : Int × String) (item : Block) :
    innerStep em acc item = specStep em acc item := by
  have hd : (0 : Int) ≤ (item.indent : Int) := Int.natCast_nonneg _
  simp only [innerStep, specStep]
  split_ifs <;> first | rfl | omega

/-- On an all-indent-zero run the reconstruction fold only concatenates
the element markup. -/
theorem foldl_innerStep_allZero (em : String → String) (bs : List Block)
    (h : ∀ b ∈ bs, b.indent = 0) (s : String) :
    bs.foldl (innerStep em) (0, s) = (0, s ++ concatMarkup em bs) := by
  induction bs generalizing s with
  | nil => simp [concatMarkup]
  | cons b rest ih =>
      have hb : b.indent = 0 := h b (List.mem_cons_self _ _)
      have hstep : innerStep em (0, s) b = (0, s ++ em b.key) := by
        simp [innerStep, hb]
      rw [List.foldl_cons, hstep, ih (fun c hc => h c (List.mem_cons_of_mem _ hc))]
      simp [concatMarkup, String.append_assoc]

/-- Token rendering distributes over list append. -/
theorem renderTokens_append (ts us : List MarkupToken) :
    renderTokens (ts ++ us) = renderTokens ts ++ renderTokens us := by
  induction ts with
  | nil => rfl
  | cons t ts ih => simp [renderTokens, ih, String.append_assoc]

/-- Rendering a run of opening tokens gives the repeated opening tag. -/
theorem renderTokens_replicate_open (n : Nat) :
    renderTokens (List.replicate n MarkupToken.openUl) = strRepeat ("<ul>") n := by
  induction n with
  | zero => rfl
  | succ n ih => simp [List.replicate, renderTokens, strRepeat, ih, renderToken]

/-- Rendering a run of closing tokens gives the repeated closing tag. -/
theorem renderTokens_replicate_close (n : Nat) :
    renderTokens (List.replicate n MarkupToken.closeUl) = strRepeat ("</ul>") n := by
  induction n with
  | zero => rfl
  | succ n ih => simp [List.replicate, renderTokens, strRepeat, ih, renderToken]

/-- One token-level step renders to one string-level step. -/
theorem renderState_tokenStep (em : String → String) (acc : Int × List MarkupToken) (b : Block) :
    renderState (tokenStep em acc b) = innerStep em (renderState acc) b := by
  simp only [tokenStep, innerStep, renderState]
  split_ifs <;> first
    | omega
    | simp [renderTokens_append, renderTokens, renderToken,
        renderTokens_replicate_open, renderTokens_replicate_close,
        String.append_assoc, String.append_empty]

/-- The token-level fold renders to the string-level fold. -/
theorem renderState_foldl (em : String → String) (bs : List Block)
    (acc : Int × List MarkupToken) :
    renderState (bs.foldl (tokenStep em) acc) = bs.foldl (innerStep em) (renderState acc) := by
  induction bs generalizing acc with
  | nil => rfl
  | cons b rest ih => rw [List.foldl_cons, List.foldl_cons, ih, renderState_tokenStep]

/-- The token-level reconstruction renders to the markup string the
program produces. -/
theorem renderTokens_buildNestedTokens (em : String → String) (bs : List Block) :
    renderTokens (buildNestedTokens em bs) = buildNestedMarkup em bs := by
  have h := renderState_foldl em bs (0, [])
  have := congrArg Prod.snd h
  simpa [renderState, renderTokens, buildNestedTokens, buildNestedMarkup] using this

/-- Tag balance is additive under append. -/
theorem ulBalance_append (ts us : List MarkupToken) :
    ulBalance (ts ++ us) = ulBalance ts + ulBalance us := by
  simp [ulBalance, List.countP_append]
  ring

/-- Tag balance of a run of opening tokens. -/
theorem ulBalance_replicate_open (n : Nat) :
    ulBalance (List.replicate n MarkupToken.openUl) = (n : Int) := by
  induction n with
  | zero => rfl
  | succ n ih =>
      rw [List.replicate_succ, show (MarkupToken.openUl :: List.replicate n MarkupToken.openUl)
        = [MarkupToken.openUl] ++ List.replicate n MarkupToken.openUl from rfl,
        ulBalance_append, ih]
      simp [ulBalance]
      ring

/-- Tag balance of a run of closing tokens. -/
theorem ulBalance_replicate_close (n : Nat) :
    ulBalance (List.replicate n MarkupToken.closeUl) = -(n : Int) := by
  induction n with
  | zero => rfl
  | succ n ih =>
      rw [List.replicate_succ, show (MarkupToken.closeUl :: List.replicate n MarkupToken.closeUl)
        = [MarkupToken.closeUl] ++ List.replicate n MarkupToken.closeUl from rfl,
        ulBalance_append, ih]
      simp [ulBalance]

/-- A copied markup chunk contributes no structural tag. -/
theorem ulBalance_chunk (s : String) : ulBalance [MarkupToken.chunk s] = 0 := by
  simp [ulBalance]

/-- One reconstruction step changes the emitted tag balance by the
difference between the block's indent and the previous indentation. -/
theorem ulBalance_tokenStep (em : String → String) (acc : Int × List MarkupToken) (b : Block) :
    ulBalance ((tokenStep em acc b).2) = ulBalance acc.2 + ((b.indent : Int) - acc.1) := by
  simp only [tokenStep]
  rw [ulBalance_append, ulBalance_append, ulBalance_chunk]
  split_ifs with h1 h2
  · rw [ulBalance_replicate_open]
    omega
  · rw [ulBalance_replicate_close]
    omega
  · have hz : ulBalance ([] : List MarkupToken) = 0 := rfl
    rw [hz]
    omega

/-- Over the whole fold, the emitted tag balance telescopes to the final
lastIndentation minus the initial one. -/
theorem foldl_tokenStep_balance (em : String → String) (bs : List Block)
    (n : Int) (ts : List MarkupToken) :
    ulBalance ((bs.foldl (tokenStep em) (n, ts)).2)
      = ulBalance ts + ((bs.foldl (tokenStep em) (n, ts)).1 - n) := by
  induction bs generalizing n ts with
  | nil => simp
  | cons b rest ih =>
      rw [List.foldl_cons]
      have h2 := ulBalance_tokenStep em (n, ts) b
      have h1 : (tokenStep em (n, ts) b).1 = ((b.indent : Int)) := rfl
      rw [show tokenStep em (n, ts) b
            = ((tokenStep em (n, ts) b).1, (tokenStep em (n, ts) b).2) from rfl,
        ih, h2, h1]
      ring

/-- The lastIndentation after folding a prefix of i + 1 blocks is the
indent of block i. -/
theorem foldl_tokenStep_fst_take (em : String → String) (bs : List Block)
    (i : Nat) (hi : i < bs.length) (acc : Int × List MarkupToken) :
    ((bs.take (i + 1)).foldl (tokenStep em) acc).1 = ((bs.get ⟨i, hi⟩).indent : Int) := by
  induction bs generalizing i acc with
  | nil => simp at hi
  | cons b rest ih =>
      cases i with
      | zero => simp [tokenStep]
      | succ j =>
          rw [List.take_succ_cons, List.foldl_cons]
          exact ih j (by simpa using hi) _

/-- A query key matching none of the updates passes through the
keyMap-building fold untouched. -/
theorem keyMapGo_frame (fragmentKeys : List String) (liveKeys : List String) (idx : Nat)
    (acc : String → Option String) (k : String)
    (h : ∀ j, j < liveKeys.length → ¬ k = ((fragmentKeys.get? (idx + j)).getD ("undefined"))) :
    keyMapGo fragmentKeys idx liveKeys acc k = acc k := by
  induction liveKeys generalizing idx acc with
  | nil => rfl
  | cons item rest ih =>
      show keyMapGo fragmentKeys (idx + 1) rest _ k = acc k
      rw [ih (idx + 1) _ (fun j hj => by
        have h0 := h (j + 1) (by simpa using Nat.succ_lt_succ hj)
        have harith : idx + (j + 1) = idx + 1 + j := by omega
        rw [harith] at h0
        exact h0)]
      have h0 := h 0 (by simp)
      simp only [Nat.add_zero] at h0
      show (if k = ((fragmentKeys.get? idx).getD ("undefined")) then some item else acc k) = acc k
      rw [if_neg h0]

/-- With distinct fragment keys and enough of them, querying the built
map at the fragment key of position idx + i returns the live key at
position i. -/
theorem keyMapGo_get (fragmentKeys : List String) (liveKeys : List String) (idx : Nat)
    (acc : String → Option String)
    (hnd : fragmentKeys.Nodup)
    (hlen : idx + liveKeys.length ≤ fragmentKeys.length)
    (i : Nat) (hi : i < liveKeys.length) (hif : idx + i < fragmentKeys.length) :
    keyMapGo fragmentKeys idx liveKeys acc (fragmentKeys.get ⟨idx + i, hif⟩)
      = some (liveKeys.get ⟨i, hi⟩) := by
  induction liveKeys generalizing idx acc i with
  | nil => simp at hi
  | cons item rest ih =>
      cases i with
      | zero =>
          show keyMapGo fragmentKeys (idx + 1) rest _ _ = some item
          rw [keyMapGo_frame fragmentKeys rest (idx + 1) _ _ (fun j hj => by
            intro heq
            have hjf : idx + 1 + j < fragmentKeys.length := by
              simp only [List.length_cons] at hlen
              omega
            rw [List.get?_eq_get hjf, Option.getD_some] at heq
            have := (List.Nodup.get_inj_iff hnd).mp heq
            have : idx + 0 = idx + 1 + j := congrArg Fin.val this
            omega)]
          have hidx : idx < fragmentKeys.length := by omega
          rw [List.get?_eq_get hidx, Option.getD_some]
          have : fragmentKeys.get ⟨idx + 0, hif⟩ = fragmentKeys.get ⟨idx, hidx⟩ := by
            congr 1
          simp [this]
      | succ j =>
          show keyMapGo fragmentKeys (idx + 1) rest _ _ = some (rest.get ⟨j, by simpa using hi⟩)
          have hif2 : idx + 1 + j < fragmentKeys.length := by omega
          have hfin : (⟨idx + (j + 1), hif⟩ : Fin fragmentKeys.length) = ⟨idx + 1 + j, hif2⟩ := by
            simp only [Fin.mk.injEq]
            omega
          rw [congrArg fragmentKeys.get hfin]
          exact ih (idx + 1) _ (by simp only [List.length_cons] at hlen; omega) j
            (by simpa using hi) hif2

/-- Positional correctness of the built keyMap from position 0. -/
theorem keyMapFun_get (fragmentKeys liveKeys : List String)
    (hnd : fragmentKeys.Nodup)
    (hlen : liveKeys.length ≤ fragmentKeys.length)
    (i : Nat) (hi : i < liveKeys.length) (hif : i < fragmentKeys.length) :
    keyMapFun fragmentKeys liveKeys (fragmentKeys.get ⟨i, hif⟩) = some (liveKeys.get ⟨i, hi⟩) := by
  have h := keyMapGo_get fragmentKeys liveKeys 0 (fun _ => none) hnd (by omega) i hi (by omega)
  have hfin : (⟨0 + i, by omega⟩ : Fin fragmentKeys.length) = ⟨i, hif⟩ := by
    simp only [Fin.mk.injEq]
    omega
  rw [keyMapFun, ← congrArg fragmentKeys.get hfin]
  exact h

/-- Text lookup by key returns the member block's own text when the
fragment's keys are distinct. -/
theorem fragGetText_mem (frag : List Block) (b : Block) (hb : b ∈ frag)
    (hnd : (fragmentKeySeq frag).Nodup) : fragGetText frag b.key = b.text := by
  induction frag with
  | nil => cases hb
  | cons c rest ih =>
      have hnd2 : c.key ∉ fragmentKeySeq rest ∧ (fragmentKeySeq rest).Nodup := by
        simpa [fragmentKeySeq] using hnd
      rcases List.mem_cons.mp hb with hbc | hbr
      · subst hbc
        simp [fragGetText, List.find?]
      · have hne : (c.key == b.key) = false := by
          have : b.key ∈ fragmentKeySeq rest := List.mem_map.mpr ⟨b, hbr, rfl⟩
          rw [beq_eq_false_iff_ne]
          intro heq
          exact hnd2.1 (heq ▸ this)
        have : fragGetText (c :: rest) b.key = fragGetText rest b.key := by
          simp [fragGetText, List.find?, hne]
        rw [this]
        exact ih hbr hnd2.2

/-! Claim theorems. -/

/-- C1: for every element map and fragment, the nested-list
reconstructor equals the specification's fold (li-wrap exactly when the
indent is positive, sunk-signed runs of ul tags, accumulator append,
lastIndentation update), and a fragment of blocks all at indent 0
yields the plain in-order concatenation of their markup. -/
theorem nestedReconstructor_matches_spec_fold (em : String → String) (bs : List Block) :
    buildNestedMarkup em bs = buildNestedMarkupSpec em bs ∧
    ((∀ b ∈ bs, b.indent = 0) → buildNestedMarkup em bs = concatMarkup em bs) := by
  constructor
  · unfold buildNestedMarkup buildNestedMarkupSpec
    rw [List.foldl_ext (innerStep em) (specStep em) _ (fun a b _ => innerStep_eq_specStep em a b)]
  · intro h
    unfold buildNestedMarkup
    rw [foldl_innerStep_allZero em bs h ""]
    exact String.empty_append _

/-- C1 witness: both conjuncts evaluated on a two-block flat fragment. -/
theorem nestedReconstructor_matches_spec_fold_witness :
    buildNestedMarkup (fun k => if k = ("k0") then ("B0") else ("B1"))
        [⟨"k0", "t0", 0⟩, ⟨"k1", "t1", 0⟩]
      = buildNestedMarkupSpec (fun k => if k = ("k0") then ("B0") else ("B1"))
        [⟨"k0", "t0", 0⟩, ⟨"k1", "t1", 0⟩] ∧
    buildNestedMarkup (fun k => if k = ("k0") then ("B0") else ("B1"))
        [⟨"k0", "t0", 0⟩, ⟨"k1", "t1", 0⟩]
      = concatMarkup (fun k => if k = ("k0") then ("B0") else ("B1"))
        [⟨"k0", "t0", 0⟩, ⟨"k1", "t1", 0⟩] :=
  ⟨(nestedReconstructor_matches_spec_fold _ _).1,
   (nestedReconstructor_matches_spec_fold _ _).2 (by decide)⟩

/-- C2 counterexample: on indents 0 and 2 the reconstructor emits no
trailing closing tags, so the output is not the balanced string the
claim names. -/
theorem multiLevelJump_counterexample :
    ¬ (buildNestedMarkup (fun k => if k = ("k0") then ("B0") else ("B1"))
        [⟨"k0", "t0", 0⟩, ⟨"k1", "t1", 2⟩] = "B0<ul><ul><li>B1</li></ul></ul>") := by
  decide

/-- C2 amended: indents 0 and 2 produce the first block's markup, two
opening ul tags in one step, and the second block wrapped as an li,
with the two list levels left unclosed (no trailing-close pass). -/
theorem multiLevelJump_amended (em : String → String) (b0 b1 : Block)
    (h0 : b0.indent = 0) (h1 : b1.indent = 2) :
    buildNestedMarkup em [b0, b1]
      = em b0.key ++ ("<ul><ul>" ++ ("<li>" ++ (em b1.key ++ "</li>"))) := by
  simp [buildNestedMarkup, innerStep, h0, h1, strRepeat, String.append_assoc]

/-- C2 witness: the amended output evaluated on concrete blocks. -/
theorem multiLevelJump_amended_witness :
    buildNestedMarkup (fun k => if k = ("k0") then ("B0") else ("B1"))
        [⟨"k0", "t0", 0⟩, ⟨"k1", "t1", 2⟩]
      = "B0" ++ ("<ul><ul>" ++ ("<li>" ++ ("B1" ++ "</li>"))) := by
  have h := multiLevelJump_amended (fun k => if k = ("k0") then ("B0") else ("B1"))
    ⟨"k0", "t0", 0⟩ ⟨"k1", "t1", 2⟩ rfl rfl
  simpa using h

/-- C3: the token view renders to the program's markup string, after
each processed block the emitted opening-minus-closing ul tag count
equals that block's indent, and hence a fragment whose last block has
indent d ends with tag balance d — the unclosed levels are never closed
by a trailing pass. -/
theorem emittedTagBalance_matches_indent (em : String → String) (bs : List Block) :
    renderTokens (buildNestedTokens em bs) = buildNestedMarkup em bs ∧
    (∀ i, ∀ hi : i < bs.length,
      ulBalance (buildNestedTokens em (bs.take (i + 1))) = ((bs.get ⟨i, hi⟩).indent : Int)) ∧
    (∀ h : bs ≠ [],
      ulBalance (buildNestedTokens em bs) = ((bs.getLast h).indent : Int)) := by
  have key : ∀ i, ∀ hi : i < bs.length,
      ulBalance (buildNestedTokens em (bs.take (i + 1))) = ((bs.get ⟨i, hi⟩).indent : Int) := by
    intro i hi
    have hb := foldl_tokenStep_balance em (bs.take (i + 1)) 0 []
    have hf := foldl_tokenStep_fst_take em bs i hi (0, [])
    unfold buildNestedTokens
    rw [hb, hf]
    have hz : ulBalance ([] : List MarkupToken) = 0 := rfl
    rw [hz]
    ring
  refine ⟨renderTokens_buildNestedTokens em bs, key, ?_⟩
  intro h
  have hpos : 0 < bs.length := List.length_pos.mpr h
  have hlast := key (bs.length - 1) (by omega)
  rw [show bs.length - 1 + 1 = bs.length from by omega, List.take_length] at hlast
  rw [hlast]
  congr 1
  simp [List.getLast_eq_getElem, List.get_eq_getElem]

/-- C3 witness: balance after each block and the final unclosed depth on
a fragment ending at indent 2. -/
theorem emittedTagBalance_matches_indent_witness :
    renderTokens (buildNestedTokens (fun _ => ("B")) [⟨"k0", "t0", 0⟩, ⟨"k1", "t1", 2⟩])
      = buildNestedMarkup (fun _ => ("B")) [⟨"k0", "t0", 0⟩, ⟨"k1", "t1", 2⟩] ∧
    ulBalance (buildNestedTokens (fun _ => ("B")) ([⟨"k0", "t0", 0⟩, ⟨"k1", "t1", 2⟩].take 2)) = 2 ∧
    ulBalance (buildNestedTokens (fun _ => ("B")) [⟨"k0", "t0", 0⟩, ⟨"k1", "t1", 2⟩]) = 2 := by
  refine ⟨(emittedTagBalance_matches_indent (fun _ => ("B")) _).1, ?_, ?_⟩
  · exact (emittedTagBalance_matches_indent (fun _ => ("B")) _).2.1 1 (by decide)
  · exact (emittedTagBalance_matches_indent (fun _ => ("B")) _).2.2 (by decide)

/-- C4 counterexample: with a non-collapsed selection but no
clipboardData API, neither handler calls preventDefault. -/
theorem preventDefault_counterexample :
    ({ content := { blocks := [⟨"a", "ta", 0⟩] },
       selection := { collapsed := false, startKey := "a", endKey := "a" } }
        : EditorState).selection.collapsed = false ∧
    (editOnCopyFull { selectionText := "s", capturedInner := "c", findElement := fun _ => none }
      (fun _ => "S")
      { content := { blocks := [⟨"a", "ta", 0⟩] },
        selection := { collapsed := false, startKey := "a", endKey := "a" } }
      false (some [⟨"f1", "ta", 0⟩])).preventDefault = false ∧
    (editOnCut { selectionText := "s", capturedInner := "c", findElement := fun _ => none }
      (fun _ => "S")
      { content := { blocks := [⟨"a", "ta", 0⟩] },
        selection := { collapsed := false, startKey := "a", endKey := "a" } }
      false (some [⟨"f1", "ta", 0⟩])).preventDefault = false :=
  ⟨rfl, rfl, rfl⟩

/-- C4 amended: both handlers call preventDefault exactly when the
selection is collapsed, or the clipboardData API is present and the
extracted fragment is truthy — not on every invocation with a
selection. -/
theorem preventDefault_condition (env : DomEnv) (serialize : List Block → String)
    (st : EditorState) (hasClipboardData : Bool) (fragment : Option (List Block)) :
    (editOnCopyFull env serialize st hasClipboardData fragment).preventDefault
      = (st.selection.collapsed || (hasClipboardData && fragment.isSome)) ∧
    (editOnCut env serialize st hasClipboardData fragment).preventDefault
      = (st.selection.collapsed || (hasClipboardData && fragment.isSome)) := by
  cases hc : st.selection.collapsed <;> cases hasClipboardData <;> cases fragment <;>
    simp [editOnCopyFull, editOnCut, hc]

/-- C5: on a collapsed selection both handlers suppress the default
action and do nothing else — no clipboard cache write, no setData, no
mode change, no deferred work. -/
theorem collapsed_noop (env : DomEnv) (serialize : List Block → String) (st : EditorState)
    (hasClipboardData : Bool) (fragment : Option (List Block))
    (h : st.selection.collapsed = true) :
    editOnCopyFull env serialize st hasClipboardData fragment
      = { preventDefault := true, setClipboardCalled := false, clipboardArg := none,
          writes := [] } ∧
    editOnCut env serialize st hasClipboardData fragment
      = { preventDefault := true, setClipboardCalled := false, clipboardArg := none,
          setModeCalls := [], deferred := [], writes := [] } := by
  constructor <;> simp [editOnCopyFull, editOnCut, h]

/-- C5 witness: the no-op effect records on a concrete collapsed
selection. -/
theorem collapsed_noop_witness :
    ({ content := { blocks := [] },
       selection := { collapsed := true, startKey := "a", endKey := "a" } }
        : EditorState).selection.collapsed = true ∧
    (editOnCopyFull { selectionText := "s", capturedInner := "c", findElement := fun _ => none }
        (fun _ => "S")
        { content := { blocks := [] },
          selection := { collapsed := true, startKey := "a", endKey := "a" } }
        true (some [])
      = { preventDefault := true, setClipboardCalled := false, clipboardArg := none,
          writes := [] } ∧
    editOnCut { selectionText := "s", capturedInner := "c", findElement := fun _ => none }
        (fun _ => "S")
        { content := { blocks := [] },
          selection := { collapsed := true, startKey := "a", endKey := "a" } }
        true (some [])
      = { preventDefault := true, setClipboardCalled := false, clipboardArg := none,
          setModeCalls := [], deferred := [], writes := [] }) :=
  ⟨rfl, collapsed_noop _ _ _ _ _ rfl⟩

/-- C6: the keyMap is the positional zip of the fragment's key sequence
against the live range computed by skip-until-start, take-until-end
plus the end key: with distinct fragment keys and equal lengths, the
i-th fragment key maps to the i-th selected live key. -/
theorem keyMap_positional_zip (docKeys fragmentKeys : List String) (startKey endKey : String)
    (hnd : fragmentKeys.Nodup)
    (hlen : fragmentKeys.length = (selectedBlockKeys docKeys startKey endKey).length)
    (i : Nat) (hif : i < fragmentKeys.length)
    (hil : i < (selectedBlockKeys docKeys startKey endKey).length) :
    keyMapFun fragmentKeys (selectedBlockKeys docKeys startKey endKey)
        (fragmentKeys.get ⟨i, hif⟩)
      = some ((selectedBlockKeys docKeys startKey endKey).get ⟨i, hil⟩) :=
  keyMapFun_get fragmentKeys _ hnd (le_of_eq hlen.symm) i hil hif

/-- C6 witness: the second fragment key maps to the second selected live
key on a concrete document. -/
theorem keyMap_positional_zip_witness :
    keyMapFun ["f1", "f2"] (selectedBlockKeys ["a", "b", "c"] ("a") ("b")) ("f2")
      = some ("b") := by
  have h := keyMap_positional_zip ["a", "b", "c"] ["f1", "f2"] ("a") ("b")
    (by decide) (by decide) 1 (by decide) (by decide)
  exact h

/-- C7: when the captured clone has no element for a block's mapped live
key, the element map entry is a synthesized div holding the block's raw
text, and both handlers still complete the operation (preventDefault and
all three setData calls happen). -/
theorem missingElement_fallback (env : DomEnv) (serialize : List Block → String)
    (st : EditorState) (frag : List Block) (km : String → Option String) (b : Block)
    (hb : b ∈ frag) (hnd : (fragmentKeySeq frag).Nodup)
    (hmiss : env.findElement ((km b.key).getD ("undefined")) = none)
    (hsel : st.selection.collapsed = false) :
    blockKeyToElementMap env frag km b.key = "<div>" ++ b.text ++ "</div>" ∧
    (editOnCopyFull env serialize st true (some frag)).preventDefault = true ∧
    ((editOnCopyFull env serialize st true (some frag)).writes).length = 3 ∧
    (editOnCut env serialize st true (some frag)).preventDefault = true ∧
    ((editOnCut env serialize st true (some frag)).writes).length = 3 := by
  refine ⟨?_, ?_, ?_, ?_, ?_⟩
  · unfold blockKeyToElementMap
    rw [hmiss, fragGetText_mem frag b hb hnd]
  · simp [editOnCopyFull, hsel]
  · simp [editOnCopyFull, hsel, richWrites]
  · simp [editOnCut, hsel]
  · simp [editOnCut, hsel, richWrites]

/-- C7 witness: the fallback div and completion on a concrete missing
element. -/
theorem missingElement_fallback_witness :
    blockKeyToElementMap
        { selectionText := "s", capturedInner := "c", findElement := fun _ => none }
        [⟨"f1", "hello", 0⟩] (fun _ => some ("a")) ("f1")
      = "<div>" ++ "hello" ++ "</div>" ∧
    (editOnCopyFull { selectionText := "s", capturedInner := "c", findElement := fun _ => none }
      (fun _ => "S")
      { content := { blocks := [⟨"a", "hello", 0⟩] },
        selection := { collapsed := false, startKey := "a", endKey := "a" } }
      true (some [⟨"f1", "hello", 0⟩])).preventDefault = true := by
  have h := missingElement_fallback
    { selectionText := "s", capturedInner := "c", findElement := fun _ => none }
    (fun _ => "S")
    { content := { blocks := [⟨"a", "hello", 0⟩] },
      selection := { collapsed := false, startKey := "a", endKey := "a" } }
    [⟨"f1", "hello", 0⟩] (fun _ => some ("a")) ⟨"f1", "hello", 0⟩
    (by decide) (by decide) rfl rfl
  exact ⟨h.1, h.2.1⟩

/-- C8: on a non-collapsed cut, exactly one deferred callback is
registered, and inside it the removed-range update runs strictly after
restoreEditorDOM and exitCurrentMode; all clipboard writes live in the
synchronous effect record, which the event loop completes before any
setTimeout callback runs. -/
theorem cut_deferred_recovery (env : DomEnv) (serialize : List Block → String)
    (st : EditorState) (hasClipboardData : Bool) (fragment : Option (List Block))
    (h : st.selection.collapsed = false) :
    (editOnCut env serialize st hasClipboardData fragment).deferred
      = [[DeferredAction.restoreEditorDOM, DeferredAction.exitCurrentMode,
          DeferredAction.update (removeFragment st)]] := by
  cases hasClipboardData <;> cases fragment <;> simp [editOnCut, h]

/-- C8 witness: the deferred callback on a concrete cut invocation. -/
theorem cut_deferred_recovery_witness :
    (editOnCut { selectionText := "s", capturedInner := "c", findElement := fun _ => none }
        (fun _ => "S")
        { content := { blocks := [⟨"a", "ta", 0⟩] },
          selection := { collapsed := false, startKey := "a", endKey := "a" } }
        true (some [⟨"f1", "ta", 0⟩])).deferred
      = [[DeferredAction.restoreEditorDOM, DeferredAction.exitCurrentMode,
          DeferredAction.update (removeFragment
            { content := { blocks := [⟨"a", "ta", 0⟩] },
              selection := { collapsed := false, startKey := "a", endKey := "a" } })]] :=
  cut_deferred_recovery _ _ _ _ _ rfl

/-- C9 counterexample: on a concrete input the two copy variants leave
different final text/html payloads — the simple variant ships the
childless shallow-cloned wrapper, the full variant the reconstruction. -/
theorem copyVariants_htmlPayload_counterexample :
    ¬ (lastHtml (editOnCopyFull
          { selectionText := "plain", capturedInner := "CAP", findElement := fun _ => none }
          (fun _ => "SER")
          { content := { blocks := [⟨"a", "ta", 0⟩] },
            selection := { collapsed := false, startKey := "a", endKey := "a" } }
          true (some [⟨"f", "ta", 0⟩]))
        = lastHtml (editOnCopySimple
          { selectionText := "plain", capturedInner := "CAP", findElement := fun _ => none }
          (fun _ => "SER")
          { content := { blocks := [⟨"a", "ta", 0⟩] },
            selection := { collapsed := false, startKey := "a", endKey := "a" } }
          true (some [⟨"f", "ta", 0⟩]))) := by
  decide

/-- C9 amended: the two variants agree on the text/plain channel, but
their text/html payloads differ in general — the simple variant always
writes the childless attribute-only wrapper, while the full variant
writes the wrapper holding the nested-list reconstruction. -/
theorem copyVariants_channels (env : DomEnv) (serialize : List Block → String)
    (st : EditorState) (frag : List Block) (h : st.selection.collapsed = false) :
    plainWrites (editOnCopyFull env serialize st true (some frag))
      = plainWrites (editOnCopySimple env serialize st true (some frag)) ∧
    lastHtml (editOnCopySimple env serialize st true (some frag))
      = some (divOuterHTML
          [("data-editor-content", serialize frag), ("style", "white-space: pre-wrap;")] ("")) ∧
    lastHtml (editOnCopyFull env serialize st true (some frag))
      = some (divOuterHTML [("data-editor-content", serialize frag)]
          (reconstructionHtml env st frag)) := by
  refine ⟨?_, ?_, ?_⟩ <;>
    simp [editOnCopyFull, editOnCopySimple, h, plainWrites, lastHtml, richWrites, List.filter]

/-- C9 witness: equal text/plain payloads on a concrete input. -/
theorem copyVariants_channels_witness :
    plainWrites (editOnCopyFull
        { selectionText := "p", capturedInner := "c", findElement := fun _ => none }
        (fun _ => "S")
        { content := { blocks := [⟨"a", "ta", 0⟩] },
          selection := { collapsed := false, startKey := "a", endKey := "a" } }
        true (some [⟨"f", "ta", 0⟩]))
      = plainWrites (editOnCopySimple
        { selectionText := "p", capturedInner := "c", findElement := fun _ => none }
        (fun _ => "S")
        { content := { blocks := [⟨"a", "ta", 0⟩] },
          selection := { collapsed := false, startKey := "a", endKey := "a" } }
        true (some [⟨"f", "ta", 0⟩])) :=
  (copyVariants_channels _ _ _ _ rfl).1

/-- C10: the deferred range removal is a function of the editor state
snapshot captured when the cut handler entered — it does not depend on
the DOM environment, the serializer, the clipboardData flag or the
fragment — and it is removeRange of the snapshot's content and
selection with direction forward, pushed with change type
remove-range. -/
theorem cut_removal_from_snapshot (env env2 : DomEnv)
    (serialize serialize2 : List Block → String) (st : EditorState)
    (hasClipboardData hasClipboardData2 : Bool) (fragment fragment2 : Option (List Block))
    (h : st.selection.collapsed = false) :
    (editOnCut env serialize st hasClipboardData fragment).deferred
      = (editOnCut env2 serialize2 st hasClipboardData2 fragment2).deferred ∧
    (editOnCut env serialize st hasClipboardData fragment).deferred
      = [[DeferredAction.restoreEditorDOM, DeferredAction.exitCurrentMode,
          DeferredAction.update (StateExpr.push st
            (ContentExpr.removeRange st.content st.selection ("forward"))
            ("remove-range"))]] := by
  cases hasClipboardData <;> cases hasClipboardData2 <;> cases fragment <;> cases fragment2 <;>
    simp [editOnCut, h, removeFragment]

/-- C10 witness: two cut invocations sharing only the snapshot register
the same deferred removal. -/
theorem cut_removal_from_snapshot_witness :
    (editOnCut { selectionText := "s", capturedInner := "c", findElement := fun _ => none }
        (fun _ => "S")
        { content := { blocks := [⟨"a", "ta", 0⟩] },
          selection := { collapsed := false, startKey := "a", endKey := "a" } }
        true (some [⟨"f1", "ta", 0⟩])).deferred
      = (editOnCut
        { selectionText := "zz", capturedInner := "ww", findElement := fun _ => some ("E") }
        (fun _ => "T")
        { content := { blocks := [⟨"a", "ta", 0⟩] },
          selection := { collapsed := false, startKey := "a", endKey := "a" } }
        false none).deferred :=
  (cut_removal_from_snapshot _ _ _ _ _ _ _ _ _ rfl).1

end DraftClip
